import Mathlib

/-!
Shallow embedding of `src/fzf_but_typed/compatibility.py` (the version
compatibility checker of the typed-fzf library), together with proofs about
its behaviour.

The Python module provides:
* a frozen dataclass `SemVer` with integer fields `major`, `minor`, `patch`,
  ordered as the field tuple;
* `SemVer.from_str`, which applies the regular expression
  `^(?P<major>\d+)\.(?P<minor>\d+).(?P<patch>\d+)\S*` via `re.search` and
  converts the three captured groups with `int(...)` (note that the second
  separator in the pattern is an unescaped dot, which matches any character
  other than a newline);
* `SemVer.is_compatible_with`, true when `major` and `minor` agree;
* `_test_compatibility`, which locates the installed version in the static
  support table with `bisect.bisect` (the right/upper-bound insertion point,
  keyed on the first pair component) and either accepts it or raises a
  composed diagnostic, optionally carrying a previously supported library
  version.

Python exceptions are modelled as values: `_raise_error` and the `SystemExit`
success path become constructors of `Verdict`, and the (never failing in
Python semantics, but a priori partial) list subscripts `table[index - 1]`
and `table[index]` are modelled with `getElem?`, so `_test_compatibility`
returns `Option Verdict` and `none` would mean an out-of-range subscript.
Python's unbounded non-negative parsed integers are `Nat`.
-/

/-- The `SemVer` dataclass: three integer components.  The regex only ever
captures digit runs and Python integers are unbounded, so the fields are
natural numbers. -/
structure SemVer where
  major : Nat
  minor : Nat
  patch : Nat
deriving DecidableEq

/-- The ordering `order=True` derives on the dataclass: Python compares the
tuple (major, minor, patch) lexicographically.  `semverLt a b` is the
strict comparison `a < b`. -/
def semverLt (a b : SemVer) : Bool :=
  decide (a.major < b.major) ||
    (a.major == b.major &&
      (decide (a.minor < b.minor) ||
        (a.minor == b.minor && decide (a.patch < b.patch))))

/-- `SemVer.is_compatible_with`: same `major` and same `minor`. -/
def SemVer.is_compatible_with (a b : SemVer) : Bool :=
  a.major == b.major && a.minor == b.minor

/-- Length of the maximal digit run at the front of the input: the text the
greedy `\d+` tries first. -/
def digitRun (l : List Char) : Nat :=
  (l.takeWhile Char.isDigit).length

/-- Value of a digit string, as computed by Python `int(...)` on a captured
group (the groups only ever hold decimal digits). -/
def natOfDigits (l : List Char) : Nat :=
  l.foldl (fun acc c => 10 * acc + (c.toNat - 48)) 0

/-- The unescaped `.` of the pattern: consumes one character, any except a
newline (`re.DOTALL` is not set). -/
def parseDotAny : List Char → Option (List Char)
  | [] => none
  | c :: rest => if c = '\n' then none else some rest

/-- The `(?P<patch>\d+)` group.  It is followed only by `\S*`, which always
succeeds on its greedy attempt, so the patch group never backtracks: it is
the maximal digit run, and the match fails here only when that run is
empty. -/
def parsePatchGroup (l : List Char) : Option Nat :=
  let d := l.takeWhile Char.isDigit
  if d.isEmpty then none else some (natOfDigits d)

/-- The `(?P<minor>\d+).(?P<patch>\d+)\S*` tail of the pattern, with the
greedy backtracking of `\d+`: the candidate length for the minor group
starts at the maximal digit run and shrinks to 1; for each candidate the
single-character wildcard and then the patch group must succeed. -/
def tryMinorGroup (l : List Char) : Nat → Option (Nat × Nat)
  | 0 => none
  | k + 1 =>
    match parseDotAny (l.drop (k + 1)) with
    | some rest =>
      match parsePatchGroup rest with
      | some p => some (natOfDigits (l.take (k + 1)), p)
      | none => tryMinorGroup l k
    | none => tryMinorGroup l k

/-- The whole pattern anchored at the start of the input, with the greedy
backtracking of the major group: candidate lengths shrink from the maximal
digit run; after the major group the escaped `\.` requires a literal dot,
then the rest of the pattern must match. -/
def tryMajorGroup (l : List Char) : Nat → Option (Nat × Nat × Nat)
  | 0 => none
  | k + 1 =>
    match l.drop (k + 1) with
    | c :: rest =>
      if c = '.' then
        match tryMinorGroup rest (digitRun rest) with
        | some (mi, pa) => some (natOfDigits (l.take (k + 1)), mi, pa)
        | none => tryMajorGroup l k
      else tryMajorGroup l k
    | [] => tryMajorGroup l k

/-- `_RE_SEMVER.search(value)` restricted to the groups: the pattern is
anchored with a caret (and the MULTILINE flag is not set), so `re.search`
can only match at position 0, starting with the major digit run. -/
def matchSemVer (l : List Char) : Option (Nat × Nat × Nat) :=
  tryMajorGroup l (digitRun l)

/-- `SemVer.from_str`: `none` models the ValueError raised when the regex
does not match; otherwise the three groups are converted with `int`. -/
def SemVer.from_str (s : String) : Option SemVer :=
  (matchSemVer s.toList).map fun t => ⟨t.1, t.2.1, t.2.2⟩

/-- Default pair handed to `List.getD` inside the bisect loop; under the
loop invariant the index is always in range, so it is never produced. -/
def padPair : SemVer × SemVer :=
  (⟨0, 0, 0⟩, ⟨0, 0, 0⟩)

/-- CPython's `bisect.bisect` (bisect_right) with `key=lambda pair: pair[0]`:
while lo < hi, with mid = (lo + hi) / 2, shrink to the left half when
x < key(a[mid]) and to the right half otherwise, and return lo.  The `gas`
argument bounds the number of loop iterations; since `hi - lo` shrinks by at
least one each time round, any `gas` with `hi - lo ≤ gas` makes this equal
to the unbounded while loop. -/
def bisectLoop (a : List (SemVer × SemVer)) (x : SemVer) : Nat → Nat → Nat → Nat
  | 0, lo, _ => lo
  | gas + 1, lo, hi =>
    if lo < hi then
      if semverLt x (a.getD ((lo + hi) / 2) padPair).1 then
        bisectLoop a x gas lo ((lo + hi) / 2)
      else
        bisectLoop a x gas ((lo + hi) / 2 + 1) hi
    else lo

/-- `bisect.bisect(a, x, key=lambda pair: pair[0])` over the whole list. -/
def bisectByKey (a : List (SemVer × SemVer)) (x : SemVer) : Nat :=
  bisectLoop a x a.length 0 a.length

/-- The outcome of one classification.  The Python code communicates it by
raising: `SystemExit` on the success path and the `RuntimeError` composed by
`_raise_error` otherwise; here both become constructors. -/
inductive Verdict where
  | compatible : Verdict
  | incompatible (my_version your_version : SemVer)
      (previously_supported : Option SemVer) : Verdict
deriving DecidableEq

/-- `_raise_error`: builds the incompatibility diagnostic out of the latest
supported version, the installed version and the optional previously
supported library version (default None). -/
def _raise_error (my_version your_version : SemVer)
    (previously_supported : Option SemVer := none) : Verdict :=
  Verdict.incompatible my_version your_version previously_supported

/-- Which middle clause `_raise_error` picks: `_ERROR_NEWER` exactly when
`your_version > my_version`, `_ERROR_OLDER` otherwise (hence also on
equality). -/
def newerClauseChosen (my_version your_version : SemVer) : Bool :=
  semverLt my_version your_version

/-- `_test_compatibility(latest_supported, found_version,
all_supported_versions)`.  The subscripts `[index - 1]` and `[index]` are
modelled fallibly; `none` would mean an IndexError, every raise of the
Python function is a `some`. -/
def _test_compatibility (latest_supported found_version : SemVer)
    (all_supported : List (SemVer × SemVer)) : Option Verdict :=
  let index := bisectByKey all_supported found_version
  if index = 0 then
    some (_raise_error latest_supported found_version)
  else if found_version.is_compatible_with latest_supported then
    some Verdict.compatible
  else if index = all_supported.length then
    some (_raise_error latest_supported found_version)
  else
    match all_supported[index - 1]? with
    | none => none
    | some (prev_fzf, prev_lib) =>
      if found_version.is_compatible_with prev_fzf then
        some (_raise_error latest_supported found_version (some prev_lib))
      else
        match all_supported[index]? with
        | none => none
        | some (next_fzf, next_lib) =>
          if found_version.is_compatible_with next_fzf then
            some (_raise_error latest_supported found_version (some next_lib))
          else
            some (_raise_error latest_supported found_version)

/-- The static support table of `test_compatibility`: fzf versions paired
with the library versions that supported them. -/
def all_supported_versions : List (SemVer × SemVer) :=
  [(⟨0, 42, 0⟩, ⟨0, 1, 0⟩), (⟨0, 43, 0⟩, ⟨0, 2, 0⟩)]

/-- `latest_supported_fzf = all_supported_versions[-1][0]`. -/
def latest_supported_fzf : SemVer :=
  (all_supported_versions.getLast (by decide)).1

/-- `test_compatibility`, parameterised by the installed version (the Python
function obtains it from a subprocess, which is outside this model). -/
def test_compatibility (found_fzf_version : SemVer) : Option Verdict :=
  _test_compatibility latest_supported_fzf found_fzf_version all_supported_versions

/-! ## Lemmas about the ordering and the compatibility predicate -/

/-- Unfolding of the derived tuple ordering into arithmetic. -/
theorem semverLt_iff (a b : SemVer) :
    semverLt a b = true ↔
      (a.major < b.major ∨ (a.major = b.major ∧
        (a.minor < b.minor ∨ (a.minor = b.minor ∧ a.patch < b.patch)))) := by
  simp [semverLt, Bool.or_eq_true, Bool.and_eq_true, decide_eq_true_eq, beq_iff_eq]

/-- The ordering is irreflexive. -/
theorem semverLt_self (a : SemVer) : semverLt a a = false := by
  cases h : semverLt a a
  · rfl
  · have := (semverLt_iff a a).mp h
    omega

/-- The ordering is asymmetric. -/
theorem semverLt_asymm {a b : SemVer} (h : semverLt a b = true) :
    semverLt b a = false := by
  cases hb : semverLt b a
  · rfl
  · have h1 := (semverLt_iff a b).mp h
    have h2 := (semverLt_iff b a).mp hb
    omega

/-- The ordering is total: two versions are equal or strictly comparable. -/
theorem semverLt_trichotomy (a b : SemVer) :
    a = b ∨ semverLt a b = true ∨ semverLt b a = true := by
  by_cases h : a = b
  · exact Or.inl h
  · right
    cases a with
    | mk am an ap =>
      cases b with
      | mk bm bn bp =>
        simp only [SemVer.mk.injEq] at h
        simp only [semverLt_iff]
        omega

/-- Unfolding of release compatibility into equalities of the first two
components. -/
theorem is_compatible_with_iff (a b : SemVer) :
    a.is_compatible_with b = true ↔ (a.major = b.major ∧ a.minor = b.minor) := by
  simp [SemVer.is_compatible_with, Bool.and_eq_true, beq_iff_eq]

/-- Every version is release-compatible with itself. -/
theorem is_compatible_with_self (a : SemVer) : a.is_compatible_with a = true := by
  simp [SemVer.is_compatible_with]

/-! ## Lemmas about the parser -/

/-- An empty tail puts no digit at the head. -/
theorem not_digit_head_nil : ∀ c ∈ ([] : List Char).head?, Char.isDigit c = false := by
  intro c hc
  simp [Option.mem_def] at hc

/-- A tail starting with a non-digit character puts no digit at the head. -/
theorem not_digit_head_cons {c0 : Char} (h : Char.isDigit c0 = false) (l : List Char) :
    ∀ c ∈ (c0 :: l).head?, Char.isDigit c = false := by
  intro c hc
  simp only [List.head?_cons, Option.mem_def, Option.some.injEq] at hc
  rw [← hc]
  exact h

/-- Transfers a head-is-not-a-digit fact along a computed `toList`. -/
theorem head_not_digit_of_toList {s : String} {c0 : Char} {l : List Char}
    (hl : s.toList = c0 :: l) (h : Char.isDigit c0 = false) :
    ∀ c ∈ s.toList.head?, Char.isDigit c = false := by
  rw [hl]
  exact not_digit_head_cons h l

/-- The maximal digit run of a digit block followed by a non-digit (or
nothing) is exactly the block. -/
theorem takeWhile_digits_append (d rest : List Char)
    (hd : ∀ c ∈ d, Char.isDigit c = true)
    (hr : ∀ c ∈ rest.head?, Char.isDigit c = false) :
    (d ++ rest).takeWhile Char.isDigit = d := by
  induction d with
  | nil =>
    simp only [List.nil_append]
    cases rest with
    | nil => rfl
    | cons c r =>
      have hc : Char.isDigit c = false := hr c rfl
      simp [List.takeWhile_cons, hc]
  | cons c cs ih =>
    have hc : Char.isDigit c = true := hd c (List.mem_cons_self c cs)
    simp only [List.cons_append, List.takeWhile_cons, hc, if_true]
    rw [ih (fun x hx => hd x (List.mem_cons_of_mem c hx))]

/-- Length form of the previous lemma. -/
theorem digitRun_append (d rest : List Char)
    (hd : ∀ c ∈ d, Char.isDigit c = true)
    (hr : ∀ c ∈ rest.head?, Char.isDigit c = false) :
    digitRun (d ++ rest) = d.length := by
  simp [digitRun, takeWhile_digits_append d rest hd hr]

/-- An input that does not start with a digit has an empty leading digit
run. -/
theorem digitRun_eq_zero (l : List Char)
    (h : ∀ c ∈ l.head?, Char.isDigit c = false) : digitRun l = 0 := by
  cases l with
  | nil => rfl
  | cons c r =>
    have hc : Char.isDigit c = false := h c rfl
    simp [digitRun, List.takeWhile_cons, hc]

/-- The minor-dot-patch tail succeeds on its first (fully greedy) candidate
when the input is laid out as digits, a dot, digits, then a suffix that does
not start with a digit; the two groups are exactly the two digit blocks. -/
theorem tryMinorGroup_exact (d2 d3 suffix : List Char)
    (h2 : d2 ≠ []) (h2d : ∀ c ∈ d2, Char.isDigit c = true)
    (h3 : d3 ≠ []) (h3d : ∀ c ∈ d3, Char.isDigit c = true)
    (hs : ∀ c ∈ suffix.head?, Char.isDigit c = false) :
    tryMinorGroup (d2 ++ '.' :: (d3 ++ suffix)) d2.length
      = some (natOfDigits d2, natOfDigits d3) := by
  cases d2 with
  | nil => exact absurd rfl h2
  | cons c cs =>
    have hlen : (c :: cs).length = cs.length + 1 := rfl
    rw [hlen]
    simp only [tryMinorGroup]
    rw [show cs.length + 1 = (c :: cs).length from rfl, List.drop_left, List.take_left]
    have hdot : parseDotAny ('.' :: (d3 ++ suffix)) = some (d3 ++ suffix) := by
      simp [parseDotAny]
    have hpatch : parsePatchGroup (d3 ++ suffix) = some (natOfDigits d3) := by
      unfold parsePatchGroup
      rw [takeWhile_digits_append d3 suffix h3d hs]
      cases d3 with
      | nil => exact absurd rfl h3
      | cons e es => rfl
    simp only [hdot, hpatch]

/-- The whole pattern succeeds on its first candidate when the input starts
with a digit block followed by a literal dot, provided the rest of the
pattern matches what follows. -/
theorem tryMajorGroup_exact (d1 rest : List Char) (mi pa : Nat)
    (h1 : d1 ≠ [])
    (hmin : tryMinorGroup rest (digitRun rest) = some (mi, pa)) :
    tryMajorGroup (d1 ++ '.' :: rest) d1.length = some (natOfDigits d1, mi, pa) := by
  cases d1 with
  | nil => exact absurd rfl h1
  | cons c cs =>
    have hlen : (c :: cs).length = cs.length + 1 := rfl
    rw [hlen]
    simp only [tryMajorGroup]
    rw [show cs.length + 1 = (c :: cs).length from rfl, List.drop_left, List.take_left]
    simp only [if_pos rfl, hmin]
    simp

/-- The regex on a fully dotted input with a non-digit suffix: it matches,
and each captured group is the corresponding digit block. -/
theorem matchSemVer_exact (d1 d2 d3 suffix : List Char)
    (h1 : d1 ≠ []) (h1d : ∀ c ∈ d1, Char.isDigit c = true)
    (h2 : d2 ≠ []) (h2d : ∀ c ∈ d2, Char.isDigit c = true)
    (h3 : d3 ≠ []) (h3d : ∀ c ∈ d3, Char.isDigit c = true)
    (hs : ∀ c ∈ suffix.head?, Char.isDigit c = false) :
    matchSemVer (d1 ++ '.' :: (d2 ++ '.' :: (d3 ++ suffix)))
      = some (natOfDigits d1, natOfDigits d2, natOfDigits d3) := by
  unfold matchSemVer
  rw [digitRun_append d1 _ h1d (not_digit_head_cons (by decide) _)]
  refine tryMajorGroup_exact d1 _ _ _ h1 ?_
  rw [digitRun_append d2 _ h2d (not_digit_head_cons (by decide) _)]
  exact tryMinorGroup_exact d2 d3 suffix h2 h2d h3 h3d hs

/-! ## Lemmas about the bisect loop -/

/-- The insertion point stays inside the searched interval. -/
theorem bisectLoop_bounds (a : List (SemVer × SemVer)) (x : SemVer) :
    ∀ (gas lo hi : Nat), lo ≤ hi →
      lo ≤ bisectLoop a x gas lo hi ∧ bisectLoop a x gas lo hi ≤ hi := by
  intro gas
  induction gas with
  | zero =>
    intro lo hi h
    exact ⟨Nat.le_refl lo, h⟩
  | succ gas ih =>
    intro lo hi h
    simp only [bisectLoop]
    by_cases hlt : lo < hi
    · rw [if_pos hlt]
      by_cases hcmp : semverLt x (a.getD ((lo + hi) / 2) padPair).1 = true
      · rw [if_pos hcmp]
        have hr := ih lo ((lo + hi) / 2) (by omega)
        exact ⟨hr.1, Nat.le_trans hr.2 (by omega)⟩
      · rw [if_neg hcmp]
        have hr := ih ((lo + hi) / 2 + 1) hi (by omega)
        exact ⟨Nat.le_trans (by omega) hr.1, hr.2⟩
    · rw [if_neg hlt]
      exact ⟨Nat.le_refl lo, h⟩

/-- When the query is not below any key of the searched interval, the loop
returns the upper end: the insertion point of a maximal element is the
length of the table. -/
theorem bisectLoop_eq_hi (a : List (SemVer × SemVer)) (x : SemVer) :
    ∀ (gas lo hi : Nat), hi - lo ≤ gas → lo ≤ hi →
      (∀ i, lo ≤ i → i < hi → semverLt x (a.getD i padPair).1 = false) →
      bisectLoop a x gas lo hi = hi := by
  intro gas
  induction gas with
  | zero =>
    intro lo hi hg hle _
    have : lo = hi := by omega
    simpa only [bisectLoop] using this
  | succ gas ih =>
    intro lo hi hg hle hall
    simp only [bisectLoop]
    by_cases hlt : lo < hi
    · rw [if_pos hlt]
      have hc : semverLt x (a.getD ((lo + hi) / 2) padPair).1 = false :=
        hall _ (by omega) (by omega)
      rw [hc]
      simp only [Bool.false_eq_true, if_false]
      exact ih _ _ (by omega) (by omega) (fun i h1 h2 => hall i (by omega) h2)
    · rw [if_neg hlt]
      omega

/-- The insertion point on the static two-entry table, in closed form. -/
theorem bisect_static (x : SemVer) :
    bisectByKey all_supported_versions x =
      if semverLt x ⟨0, 43, 0⟩ = true then
        (if semverLt x ⟨0, 42, 0⟩ = true then 0 else 1)
      else 2 := by
  cases h1 : semverLt x ⟨0, 43, 0⟩ <;> cases h0 : semverLt x ⟨0, 42, 0⟩ <;>
    simp [bisectByKey, all_supported_versions, bisectLoop, padPair, h1, h0]

/-! ## The claims -/

/-- Claim C1: an installed version equal to a table entry's fzf version is
positioned with the rightmost-insertion-point rule, so exactly 0.42.0 gets
insertion point 1 in the static table and is reported incompatible with the
older entry's library version 0.1.0 as the fallback recommendation. -/
theorem claim_C1_equal_entry_upper_bound :
    bisectByKey all_supported_versions ⟨0, 42, 0⟩ = 1 ∧
      test_compatibility ⟨0, 42, 0⟩
        = some (Verdict.incompatible ⟨0, 43, 0⟩ ⟨0, 42, 0⟩ (some ⟨0, 1, 0⟩)) := by
  decide

/-- Claim C2: whenever the installed version is release-compatible with the
latest supported version and its insertion point is nonzero, the
classification is Compatible; the check comes before the end-of-table
check, so an insertion point equal to the table length still succeeds. -/
theorem claim_C2_compatible_with_latest (latest_supported found_version : SemVer)
    (table : List (SemVer × SemVer))
    (hc : found_version.is_compatible_with latest_supported = true)
    (hi : bisectByKey table found_version ≠ 0) :
    _test_compatibility latest_supported found_version table = some Verdict.compatible := by
  simp only [_test_compatibility]
  rw [if_neg hi, if_pos hc]

/-- Witness for claim C2 at the version 0.43.5 of the spec's Scenario A,
whose insertion point in the static table is 2, the table length. -/
theorem claim_C2_witness :
    _test_compatibility latest_supported_fzf ⟨0, 43, 5⟩ all_supported_versions
      = some Verdict.compatible :=
  claim_C2_compatible_with_latest latest_supported_fzf ⟨0, 43, 5⟩ all_supported_versions
    (by decide) (by decide)

/-- Claim C3: on the static table, an installed version strictly below the
first entry yields Incompatible with no fallback, and an installed version
with insertion point 2 (the table length) that is not release-compatible
with the latest entry also yields Incompatible with no fallback. -/
theorem claim_C3_out_of_table (v : SemVer) :
    (semverLt v ⟨0, 42, 0⟩ = true →
      test_compatibility v = some (Verdict.incompatible ⟨0, 43, 0⟩ v none)) ∧
    (bisectByKey all_supported_versions v = 2 →
      v.is_compatible_with ⟨0, 43, 0⟩ = false →
      test_compatibility v = some (Verdict.incompatible ⟨0, 43, 0⟩ v none)) := by
  have hlat : latest_supported_fzf = ⟨0, 43, 0⟩ := rfl
  constructor
  · intro h
    have h1 : semverLt v ⟨0, 43, 0⟩ = true := by
      rw [semverLt_iff] at h ⊢
      simp only at h ⊢
      omega
    have hb : bisectByKey all_supported_versions v = 0 := by
      rw [bisect_static, if_pos h1, if_pos h]
    simp only [test_compatibility, _test_compatibility, hlat]
    rw [hb, if_pos rfl]
    rfl
  · intro h2 hc
    have hne0 : bisectByKey all_supported_versions v ≠ 0 := by omega
    have hlen : bisectByKey all_supported_versions v = all_supported_versions.length := by
      rw [h2]
      rfl
    simp only [test_compatibility, _test_compatibility, hlat]
    rw [if_neg hne0, if_neg (by simp [hc]), if_pos hlen]
    rfl

/-- Witness for claim C3 at 0.10.0 (Scenario D, below the whole table) and
0.44.0 (Scenario C, above the whole table and not release-compatible). -/
theorem claim_C3_witness :
    test_compatibility ⟨0, 10, 0⟩ = some (Verdict.incompatible ⟨0, 43, 0⟩ ⟨0, 10, 0⟩ none) ∧
      test_compatibility ⟨0, 44, 0⟩ = some (Verdict.incompatible ⟨0, 43, 0⟩ ⟨0, 44, 0⟩ none) :=
  ⟨(claim_C3_out_of_table ⟨0, 10, 0⟩).1 (by decide),
   (claim_C3_out_of_table ⟨0, 44, 0⟩).2 (by decide) (by decide)⟩

/-- Claim C4: a string made of three nonempty digit blocks separated by
literal dots, followed by any suffix that does not start with a digit,
parses successfully, and the parsed components are the values of the three
blocks whatever the suffix is. -/
theorem claim_C4_suffix_stability (d1 d2 d3 suffix : List Char) (s : String)
    (h1 : d1 ≠ []) (h1d : ∀ c ∈ d1, Char.isDigit c = true)
    (h2 : d2 ≠ []) (h2d : ∀ c ∈ d2, Char.isDigit c = true)
    (h3 : d3 ≠ []) (h3d : ∀ c ∈ d3, Char.isDigit c = true)
    (hs : ∀ c ∈ suffix.head?, Char.isDigit c = false)
    (hstr : s.toList = d1 ++ '.' :: (d2 ++ '.' :: (d3 ++ suffix))) :
    SemVer.from_str s = some ⟨natOfDigits d1, natOfDigits d2, natOfDigits d3⟩ := by
  unfold SemVer.from_str
  rw [hstr, matchSemVer_exact d1 d2 d3 suffix h1 h1d h2 h2d h3 h3d hs]
  rfl

/-- Witness for claim C4 on the spec's Scenario E input. -/
theorem claim_C4_witness :
    SemVer.from_str "0.43.1-abc123" = some ⟨0, 43, 1⟩ :=
  claim_C4_suffix_stability ['0'] ['4', '3'] ['1']
    ['-', 'a', 'b', 'c', '1', '2', '3'] "0.43.1-abc123"
    (by decide) (by decide) (by decide) (by decide) (by decide) (by decide)
    (not_digit_head_cons (by decide) _) (by decide)

/-- Claim C5, evaluated at the deciding inputs: strings with no leading
numeric form do fail, but the pattern's second separator is an unescaped
dot, so the input 1.2x3, which has no dotted three-component numeric form,
nevertheless parses to (1, 2, 3): the parser accepts more than the dotted
pattern. -/
theorem claim_C5_second_separator_slip :
    SemVer.from_str "1.2x3" = some ⟨1, 2, 3⟩ ∧
      SemVer.from_str "banana" = none ∧
      SemVer.from_str "" = none ∧
      SemVer.from_str "not-a-version" = none := by
  decide

/-- Claim C6: the classification is total on every well-formed input: for
every pair of versions and every table, it produces a verdict value (the
subscripts taken after the boundary checks are always in range, so the
modelled IndexError outcome never happens). -/
theorem claim_C6_never_faults (latest_supported found_version : SemVer)
    (table : List (SemVer × SemVer)) :
    (_test_compatibility latest_supported found_version table).isSome = true := by
  have hb : bisectByKey table found_version ≤ table.length :=
    (bisectLoop_bounds table found_version table.length 0 table.length (Nat.zero_le _)).2
  simp only [_test_compatibility]
  by_cases h0 : bisectByKey table found_version = 0
  · rw [if_pos h0]
    rfl
  · rw [if_neg h0]
    by_cases hc : found_version.is_compatible_with latest_supported = true
    · rw [if_pos hc]
      rfl
    · rw [if_neg hc]
      by_cases hl : bisectByKey table found_version = table.length
      · rw [if_pos hl]
        rfl
      · rw [if_neg hl]
        have hlt : bisectByKey table found_version < table.length := by omega
        have hm1 : bisectByKey table found_version - 1 < table.length := by omega
        obtain ⟨⟨pf, pl⟩, hp⟩ : ∃ p, table[bisectByKey table found_version - 1]? = some p :=
          ⟨_, List.getElem?_eq_getElem hm1⟩
        obtain ⟨⟨nf, nl⟩, hq⟩ : ∃ p, table[bisectByKey table found_version]? = some p :=
          ⟨_, List.getElem?_eq_getElem hlt⟩
        by_cases hc1 : found_version.is_compatible_with pf = true
        · simp [hp, hc1]
        · by_cases hc2 : found_version.is_compatible_with nf = true <;>
            simp [hp, hq, hc1, hc2]

/-- Claim C7, refuted at a concrete input: a 39-digit major component,
larger than fits in any standard machine integer width up to 128 bits,
parses successfully to its exact value instead of failing. -/
theorem claim_C7_counterexample :
    SemVer.from_str "340282366920938463463374607431768211457.0.0"
      = some ⟨340282366920938463463374607431768211457, 0, 0⟩ := by
  decide

/-- Claim C7 as amended: components are arbitrary-precision integers; a
version string whose major component is a digit block of any length parses
successfully to the exact value of that block, with no overflow failure and
no wraparound. -/
theorem claim_C7_amended_no_overflow (d : List Char) (s : String)
    (hd : d ≠ []) (hdd : ∀ c ∈ d, Char.isDigit c = true)
    (hstr : s.toList = d ++ '.' :: '0' :: '.' :: '0' :: []) :
    SemVer.from_str s = some ⟨natOfDigits d, 0, 0⟩ := by
  unfold SemVer.from_str
  rw [hstr]
  rw [show d ++ '.' :: '0' :: '.' :: '0' :: ([] : List Char)
      = d ++ '.' :: (['0'] ++ '.' :: (['0'] ++ ([] : List Char))) from rfl]
  rw [matchSemVer_exact d ['0'] ['0'] [] hd hdd (by decide) (by decide) (by decide)
    (by decide) not_digit_head_nil]
  rfl

/-- Witness for the amended claim C7 at a 20-digit major component, which
already exceeds a 64-bit width. -/
theorem claim_C7_witness :
    SemVer.from_str "12345678901234567890.0.0" = some ⟨12345678901234567890, 0, 0⟩ :=
  claim_C7_amended_no_overflow
    ['1', '2', '3', '4', '5', '6', '7', '8', '9', '0',
     '1', '2', '3', '4', '5', '6', '7', '8', '9', '0']
    "12345678901234567890.0.0" (by decide) (by decide) (by decide)

/-- Claim C8: release compatibility holds exactly when major and minor
agree; it ignores the patch component entirely, is reflexive, accepts
(0,42,0) with (0,42,9) and rejects (0,42,0) with (0,43,0). -/
theorem claim_C8_release_compatibility (v1 v2 : SemVer) :
    (v1.is_compatible_with v2 = true ↔ (v1.major = v2.major ∧ v1.minor = v2.minor)) ∧
      v1.is_compatible_with v1 = true ∧
      (∀ p q : Nat,
        SemVer.is_compatible_with ⟨v1.major, v1.minor, p⟩ ⟨v2.major, v2.minor, q⟩
          = v1.is_compatible_with v2) ∧
      SemVer.is_compatible_with ⟨0, 42, 0⟩ ⟨0, 42, 9⟩ = true ∧
      SemVer.is_compatible_with ⟨0, 42, 0⟩ ⟨0, 43, 0⟩ = false := by
  refine ⟨is_compatible_with_iff v1 v2, is_compatible_with_self v1, ?_, by decide, by decide⟩
  intro p q
  simp [SemVer.is_compatible_with]

/-- Claim C9: for a nonempty table with strictly increasing fzf versions
whose latest-supported value is the last entry's fzf version, an
incompatibility verdict implies the installed version differs from the
latest-supported one; consequently, whenever the diagnostic picks the
older clause (chosen by the installed-newer-than-latest comparison), the
installed version really is strictly older. -/
theorem claim_C9_incompatible_ne_latest (table : List (SemVer × SemVer))
    (lastPair : SemVer × SemVer) (latest_supported found_version : SemVer)
    (fb : Option SemVer)
    (hlast : table.getLast? = some lastPair)
    (hmono : table.Pairwise (fun p q => semverLt p.1 q.1 = true))
    (hlatest : latest_supported = lastPair.1)
    (hinc : _test_compatibility latest_supported found_version table
      = some (Verdict.incompatible latest_supported found_version fb)) :
    found_version ≠ latest_supported ∧
      (newerClauseChosen latest_supported found_version = false →
        semverLt found_version latest_supported = true) := by
  have hne : table ≠ [] := by
    intro h
    rw [h] at hlast
    simp at hlast
  have hlen : 0 < table.length := List.length_pos.mpr hne
  have hidx : table.length - 1 < table.length := by omega
  have hget : table[table.length - 1]? = some lastPair := by
    rw [← List.getLast?_eq_getElem?]
    exact hlast
  rw [List.getElem?_eq_getElem hidx] at hget
  injection hget with hget
  have hneq : found_version ≠ latest_supported := by
    intro heq
    have hkeys : ∀ i, 0 ≤ i → i < table.length →
        semverLt found_version (table.getD i padPair).1 = false := by
      intro i _ hi
      rw [List.getD_eq_getElem table padPair hi]
      by_cases hlst : i = table.length - 1
      · subst hlst
        rw [hget, heq, hlatest]
        exact semverLt_self _
      · have hR := List.pairwise_iff_getElem.mp hmono i (table.length - 1) hi hidx (by omega)
        rw [hget] at hR
        have hA := semverLt_asymm hR
        rw [heq, hlatest]
        exact hA
    have hbis : bisectByKey table found_version = table.length :=
      bisectLoop_eq_hi table found_version table.length 0 table.length
        (by omega) (by omega) hkeys
    have hcompat : found_version.is_compatible_with latest_supported = true := by
      rw [heq]
      exact is_compatible_with_self _
    have hres : _test_compatibility latest_supported found_version table
        = some Verdict.compatible := by
      simp only [_test_compatibility]
      rw [if_neg (by omega), if_pos hcompat]
    rw [hres] at hinc
    simp at hinc
  refine ⟨hneq, fun hnc => ?_⟩
  rcases semverLt_trichotomy found_version latest_supported with h | h | h
  · exact absurd h hneq
  · exact h
  · simp only [newerClauseChosen] at hnc
    rw [h] at hnc
    simp at hnc

/-- Witness for claim C9 on the static table at the installed version
0.44.0, whose verdict is incompatible with no fallback. -/
theorem claim_C9_witness :
    (⟨0, 44, 0⟩ : SemVer) ≠ ⟨0, 43, 0⟩ ∧
      (newerClauseChosen ⟨0, 43, 0⟩ ⟨0, 44, 0⟩ = false →
        semverLt ⟨0, 44, 0⟩ ⟨0, 43, 0⟩ = true) :=
  claim_C9_incompatible_ne_latest all_supported_versions (⟨0, 43, 0⟩, ⟨0, 2, 0⟩)
    ⟨0, 43, 0⟩ ⟨0, 44, 0⟩ none (by decide) (by decide) rfl (by decide)

/-- Claim C10: the pattern is anchored at position 0, so a string whose
first character is not a digit never parses, even if a well-formed version
occurs later in the string. -/
theorem claim_C10_anchor_requires_leading_digit (s : String)
    (h : ∀ c ∈ s.toList.head?, Char.isDigit c = false) :
    SemVer.from_str s = none := by
  unfold SemVer.from_str matchSemVer
  rw [digitRun_eq_zero s.toList h]
  rfl

/-- Witness for claim C10 at the two leading-character shapes the claim
names. -/
theorem claim_C10_witness :
    SemVer.from_str "v1.2.3" = none ∧ SemVer.from_str " 1.2.3" = none :=
  ⟨claim_C10_anchor_requires_leading_digit "v1.2.3"
      (head_not_digit_of_toList
        (show "v1.2.3".toList = 'v' :: ('1' :: '.' :: '2' :: '.' :: '3' :: []) by decide)
        (by decide)),
   claim_C10_anchor_requires_leading_digit " 1.2.3"
      (head_not_digit_of_toList
        (show " 1.2.3".toList = ' ' :: ('1' :: '.' :: '2' :: '.' :: '3' :: []) by decide)
        (by decide))⟩
